import Mathlib

/-!
Verification development for the pytest-richer core: a shallow embedding of
the wire-protocol codec (`src/pytest_richer/protocol.py`), the test-state
aggregator (`src/pytest_richer/tui/model.py`), the stream reconstructor and
message dispatcher (`src/pytest_richer/tui/app.py`) and the progress grouping
algorithm (`src/pytest_richer/tui/test_progress.py`), together with theorems
settling the specification claims about those components.
-/

namespace PytestRicher

/-! ## Test state model (`tui/model.py`)

`NodeResult` captures the per-test data that the derived `state` depends on:
the three optional phase reports, the `started` flag and the `parked` flag.
A phase report is modelled by the two fields the classification logic reads:
its `outcome` string and whether its `wasxfail` attribute is present
(`wasxfail is not None` in the source).  The test's nodeid is not stored in
the record itself; it is the key of the aggregator's `items` map.
-/

inductive Outcome
| passed
| failed
| skipped
deriving DecidableEq, Fintype, Repr

structure PhaseReport where
  outcome : Outcome
  wasxfail : Bool
deriving DecidableEq, Fintype, Repr

structure NodeResult where
  started : Bool := false
  parked : Bool := false
  setup : Option PhaseReport := none
  call : Option PhaseReport := none
  teardown : Option PhaseReport := none
deriving DecidableEq, Fintype, Repr

namespace NodeResult

/-- `NodeResult.finished`: true when the teardown report is set. -/
def finished (r : NodeResult) : Bool :=
  r.teardown.isSome

/-- `NodeResult._match_report`: the report if its outcome is in the list. -/
def match_report (report : Option PhaseReport) (outcomes : List Outcome) :
    Option PhaseReport :=
  match report with
  | some rep => if rep.outcome ∈ outcomes then some rep else none
  | none => none

/-- `NodeResult.passed_report`. -/
def passed_report (r : NodeResult) : Option PhaseReport :=
  match_report r.call [.passed]

/-- `NodeResult.setup_error_report`. -/
def setup_error_report (r : NodeResult) : Option PhaseReport :=
  match_report r.setup [.failed]

/-- `NodeResult.teardown_error_report`. -/
def teardown_error_report (r : NodeResult) : Option PhaseReport :=
  match_report r.teardown [.failed]

/-- `NodeResult.failed_report`: the failing call report, else any setup
error report. -/
def failed_report (r : NodeResult) : Option PhaseReport :=
  match match_report r.call [.failed] with
  | some rep => some rep
  | none => r.setup_error_report

/-- `NodeResult.main_error_report`: failing call report, else setup error,
else teardown error. -/
def main_error_report (r : NodeResult) : Option PhaseReport :=
  match match_report r.call [.failed] with
  | some rep => some rep
  | none =>
    match r.setup_error_report with
    | some rep => some rep
    | none => r.teardown_error_report

/-- `NodeResult.xfailed_report`: a call report with outcome failed or
skipped whose `wasxfail` is not `None`. -/
def xfailed_report (r : NodeResult) : Option PhaseReport :=
  match match_report r.call [.failed, .skipped] with
  | some c => if c.wasxfail then some c else none
  | none => none

/-- `NodeResult.xpassed_report`: a passing call report whose `wasxfail` is
not `None`. -/
def xpassed_report (r : NodeResult) : Option PhaseReport :=
  match match_report r.call [.passed] with
  | some c => if c.wasxfail then some c else none
  | none => none

/-- `NodeResult.skipped_report`: a skipped setup report, else a skipped
call report. -/
def skipped_report (r : NodeResult) : Option PhaseReport :=
  match match_report r.setup [.skipped] with
  | some rep => some rep
  | none => match_report r.call [.skipped]

/-- `NodeResult.state`: the if/elif cascade computing the derived state
string, exactly as in the source (the `_cached_state` memoisation is pure
caching and is not modelled). -/
def state (r : NodeResult) : String :=
  if !r.started then "not_started"
  else if r.setup.isNone then "setup_running"
  else if r.call.isNone && r.teardown.isNone then "running"
  else if r.teardown.isNone then "teardown_running"
  else if r.xfailed_report.isSome then "xfailed"
  else if r.xpassed_report.isSome then "xpassed"
  else if r.setup_error_report.isSome then "setup_errored"
  else if r.teardown_error_report.isSome then "teardown_errored"
  else if r.failed_report.isSome then "failed"
  else if r.passed_report.isSome then "passed"
  else if r.skipped_report.isSome then "skipped"
  else ""

/-- `NodeResult.reset`: clear flags and all three phase reports. -/
def reset (_r : NodeResult) : NodeResult :=
  { started := false, parked := false, setup := none, call := none,
    teardown := none }

/-- `NodeResult.park`: set the parked flag. -/
def park (r : NodeResult) : NodeResult :=
  { r with parked := true }

end NodeResult

/-! The claimed first-match cascade, written from the specification's
priority list: each state name is paired with its guard, and the derived
state is the name of the first guard that holds. -/

/-- The specification's priority-ordered list of state guards. -/
def state_priority : List (String × (NodeResult → Bool)) :=
  [("not_started", fun r => !r.started),
   ("setup_running", fun r => r.setup.isNone),
   ("running", fun r => r.call.isNone && r.teardown.isNone),
   ("teardown_running", fun r => r.teardown.isNone),
   ("xfailed", fun r => r.xfailed_report.isSome),
   ("xpassed", fun r => r.xpassed_report.isSome),
   ("setup_errored", fun r => r.setup_error_report.isSome),
   ("teardown_errored", fun r => r.teardown_error_report.isSome),
   ("failed", fun r => r.failed_report.isSome),
   ("passed", fun r => r.passed_report.isSome),
   ("skipped", fun r => r.skipped_report.isSome)]

/-- First-match evaluation of a priority list of guards: the name paired
with the first guard that holds, or the empty string. -/
def first_match (r : NodeResult) : List (String × (NodeResult → Bool)) → String
  | [] => ""
  | (name, guard) :: rest => if guard r then name else first_match r rest

/-- The specification's cascade, evaluated first-match-wins. -/
def first_match_state (r : NodeResult) : String :=
  first_match r state_priority

/-! ## The aggregator (`TestState` in `tui/model.py`)

Python dicts are modelled as insertion-ordered association lists (inserting
an existing key overwrites in place, a new key is appended); Python sets as
lists without duplicates.
-/

/-- Dict lookup: the value stored for a key. -/
def dict_get {α : Type} (key : String) : List (String × α) → Option α
  | [] => none
  | (k, v) :: rest => if k = key then some v else dict_get key rest

/-- Dict update: overwrite the value for an existing key in place, append a
new key at the end (Python `d[k] = v`). -/
def dict_set {α : Type} (key : String) (val : α) :
    List (String × α) → List (String × α)
  | [] => [(key, val)]
  | (k, v) :: rest =>
    if k = key then (k, val) :: rest else (k, v) :: dict_set key val rest

/-- Set insertion (Python `s.add(x)`). -/
def set_add (x : String) (s : List String) : List String :=
  if x ∈ s then s else s ++ [x]

/-- The phase a test report belongs to (`report.when`). -/
inductive When
| setup
| call
| teardown
deriving DecidableEq, Repr

/-- `TestReportRepresentation` as the aggregator consumes it: the nodeid,
the phase, and the two payload fields the classification logic reads. -/
structure TestReport where
  nodeid : String
  when : When
  outcome : Outcome
  wasxfail : Bool
deriving DecidableEq, Repr

/-- The payload stored in a `NodeResult` phase slot. -/
def TestReport.payload (rep : TestReport) : PhaseReport :=
  { outcome := rep.outcome, wasxfail := rep.wasxfail }

/-- Store a report in the phase slot named by `when`
(`setattr(result, report.when, report)`). -/
def NodeResult.set_phase (r : NodeResult) (w : When) (p : PhaseReport) :
    NodeResult :=
  match w with
  | .setup => { r with setup := some p }
  | .call => { r with call := some p }
  | .teardown => { r with teardown := some p }

/-- An entry of a collection report's `result` list: a `Function`
representation (an actual test) or some other collected node. -/
inductive CollectedObject
| function (nodeid : String)
| other (nodeid : String)
deriving DecidableEq, Repr

/-- `CollectReportRepresentation` as `add_collected_tests` consumes it. -/
structure CollectReport where
  nodeid : String
  outcome : Outcome
  result : List CollectedObject
deriving DecidableEq, Repr

/-- `TestState`: the aggregator's stateful content plus the
`finished_count` optimisation counter. -/
structure TestState where
  items : List (String × NodeResult) := []
  collect_failures : List (String × CollectReport) := []
  collect_skipped : List (String × CollectReport) := []
  deselected : List String := []
  processed_collect_reports : List String := []
  finished_count : Nat := 0
deriving DecidableEq, Repr

namespace TestState

/-- `TestState._reset`: clear the five stateful containers.  Note that the
source does not touch `finished_count` here (it is initialised separately in
`__init__`). -/
def reset_containers (ts : TestState) : TestState :=
  { ts with
    items := [],
    collect_failures := [],
    collect_skipped := [],
    deselected := [],
    processed_collect_reports := [] }

/-- `TestState.prepare_for_run`: full container reset for a whole-suite run
(empty selection), otherwise just clear the dedup set. -/
def prepare_for_run (ts : TestState) (selection : List String) : TestState :=
  if selection = [] then ts.reset_containers
  else { ts with processed_collect_reports := [] }

/-- `TestState.park_and_reset_stored_results`: reset every stored result in
the selection, park all the others. -/
def park_and_reset_stored_results (ts : TestState) (selection : List String) :
    TestState :=
  { ts with items := ts.items.map (fun p =>
      if p.1 ∈ selection then (p.1, p.2.reset) else (p.1, p.2.park)) }

/-- `TestState._collect_report_already_seen` (just the membership check;
the accompanying `add` is inlined at the call site below). -/
def collect_report_already_seen (ts : TestState) (report : CollectReport) :
    Bool :=
  report.nodeid ∈ ts.processed_collect_reports

/-- `TestState.add_collected_tests`: register the contents of a collection
report, dropping duplicate reports via the dedup set.  Returns the new
state plus the `(added, failed)` flag pair. -/
def add_collected_tests (ts : TestState) (report : CollectReport) :
    TestState × Bool × Bool :=
  let seen := ts.collect_report_already_seen report
  let ts :=
    { ts with processed_collect_reports :=
        set_add report.nodeid ts.processed_collect_reports }
  if seen then (ts, false, false)
  else
    match report.outcome with
    | .failed =>
      ({ ts with collect_failures :=
          dict_set report.nodeid report ts.collect_failures }, false, true)
    | .skipped =>
      ({ ts with collect_skipped :=
          dict_set report.nodeid report ts.collect_skipped }, false, false)
    | .passed =>
      ({ ts with items := report.result.foldl (fun m obj =>
          match obj with
          | .function nid => dict_set nid {} m
          | .other _ => m) ts.items }, true, false)

/-- `TestState.start_test`: mark a known test as started; returns the
updated state and whether the nodeid was known. -/
def start_test (ts : TestState) (nodeid : String) : TestState × Bool :=
  match dict_get nodeid ts.items with
  | some result =>
    ({ ts with items :=
        dict_set nodeid { result with started := true } ts.items }, true)
  | none => (ts, false)

/-- `TestState.store_test_report`: store a phase report on the matching
record, bumping `finished_count` when a teardown report finishes a test.
Returns the updated state and the record the report was stored on (`None`
when the nodeid is unknown). -/
def store_test_report (ts : TestState) (report : TestReport) :
    TestState × Option NodeResult :=
  match dict_get report.nodeid ts.items with
  | some result =>
    let count :=
      if report.when = .teardown && !result.finished then
        ts.finished_count + 1
      else ts.finished_count
    let stored := result.set_phase report.when report.payload
    ({ ts with
        items := dict_set report.nodeid stored ts.items,
        finished_count := count }, some stored)
  | none => (ts, none)

/-- `TestState.end_test`: look the record up; no aggregator mutation. -/
def end_test (ts : TestState) (nodeid : String) : Option NodeResult :=
  dict_get nodeid ts.items

/-- `TestState.passed`: the passed query view. -/
def passed (ts : TestState) : List NodeResult :=
  (ts.items.map Prod.snd).filter (fun res =>
    res.passed_report.isSome && res.xpassed_report.isNone && res.finished)

/-- The value the source documents `finished_count` as caching:
`len([res for res in self.items.values() if res.finished])`. -/
def finished_count_spec (ts : TestState) : Nat :=
  ((ts.items.map Prod.snd).filter (fun res => res.finished)).length

end TestState

/-! ## Run-phase message handling with hold-back (`MainControl` in
`tui/app.py`)

The three running-phase handlers (`proto_start_test`, `proto_test_report`,
`proto_end_test`) queue their message on `held_back_proto_calls` while
`phase` is not `"run"`; `proto_start_run_phase` sets the phase and replays
the queue in order.  Progress-bar and timing side effects are pure UI and
are not part of the model. -/

/-- A running-phase protocol message. -/
inductive ProtoMessage
| start_test (nodeid : String)
| test_report (report : TestReport)
| end_test (nodeid : String)
deriving DecidableEq, Repr

/-- The dispatcher-side state the running-phase handlers touch. -/
structure MainControl where
  phase : String := ""
  held_back_proto_calls : List ProtoMessage := []
  test_state : TestState := {}
  running_tests : List String := []
  failing_tests : List (String × NodeResult) := []
deriving DecidableEq, Repr

namespace MainControl

/-- `MainControl.proto_start_test`. -/
def proto_start_test (mc : MainControl) (nodeid : String) : MainControl :=
  if mc.phase ≠ "run" then
    { mc with held_back_proto_calls :=
        mc.held_back_proto_calls ++ [.start_test nodeid] }
  else
    match mc.test_state.start_test nodeid with
    | (ts, true) =>
      { mc with
        test_state := ts,
        running_tests := set_add nodeid mc.running_tests }
    | (ts, false) => { mc with test_state := ts }

/-- `MainControl.proto_test_report`. -/
def proto_test_report (mc : MainControl) (report : TestReport) :
    MainControl :=
  if mc.phase ≠ "run" then
    { mc with held_back_proto_calls :=
        mc.held_back_proto_calls ++ [.test_report report] }
  else
    match mc.test_state.store_test_report report with
    | (ts, some result) =>
      if result.finished && result.main_error_report.isSome then
        { mc with
          test_state := ts,
          failing_tests := dict_set report.nodeid result mc.failing_tests }
      else { mc with test_state := ts }
    | (ts, none) => { mc with test_state := ts }

/-- `MainControl.proto_end_test`. -/
def proto_end_test (mc : MainControl) (nodeid : String) : MainControl :=
  if mc.phase ≠ "run" then
    { mc with held_back_proto_calls :=
        mc.held_back_proto_calls ++ [.end_test nodeid] }
  else
    match mc.test_state.end_test nodeid with
    | some _ => { mc with running_tests := mc.running_tests.erase nodeid }
    | none => mc

/-- Dispatch one running-phase message to its handler. -/
def dispatch_proto (mc : MainControl) : ProtoMessage → MainControl
  | .start_test nodeid => mc.proto_start_test nodeid
  | .test_report report => mc.proto_test_report report
  | .end_test nodeid => mc.proto_end_test nodeid

/-- `MainControl.proto_start_run_phase`: enter the run phase, then replay
the held-back calls in original order and clear the list. -/
def proto_start_run_phase (mc : MainControl) : MainControl :=
  let mc1 := { mc with phase := "run" }
  let mc2 := mc1.held_back_proto_calls.foldl dispatch_proto mc1
  { mc2 with held_back_proto_calls := [] }

end MainControl

/-- An event reaching the running-phase machinery: a held-back-capable
protocol message, or the recognition of the run-phase start. -/
inductive RunEvent
| proto (m : ProtoMessage)
| start_run_phase
deriving DecidableEq, Repr

/-- Process one event. -/
def run_step (mc : MainControl) : RunEvent → MainControl
  | .proto m => mc.dispatch_proto m
  | .start_run_phase => mc.proto_start_run_phase

/-- Process a sequence of events in arrival order. -/
def run_events (mc : MainControl) (es : List RunEvent) : MainControl :=
  es.foldl run_step mc

/-! ## Stream reconstructor (`MainControl.process_test_run_output`)

Byte strings are `List Nat`.  `splitlines_keepends` models Python's
`bytes.splitlines(keepends=True)` (line breaks `\n`, `\r` and `\r\n`);
`process_chunk` models the body of the read loop for one non-empty block:
it returns the list of lines handed to `_process_lines` plus the new
`partline` buffer. -/

/-- The newline byte (`NL = 10` in the source). -/
def NL : Nat := 10

/-- Split off the first line (line break kept) and the remainder. -/
def take_line : List Nat → List Nat × List Nat
  | [] => ([], [])
  | b :: rest =>
    if b = 13 then
      match rest with
      | 10 :: rest2 => ([13, 10], rest2)
      | _ => ([13], rest)
    else if b = 10 then ([10], rest)
    else ((take_line rest).1.cons b, (take_line rest).2)

theorem take_line_split (l : List Nat) :
    (take_line l).1.length + (take_line l).2.length = l.length := by
  induction l using take_line.induct <;> simp +arith [take_line, *]

theorem take_line_first_ne_nil (l : List Nat) (h : l ≠ []) :
    (take_line l).1 ≠ [] := by
  induction l using take_line.induct <;> simp_all [take_line]

theorem take_line_rest_lt (l : List Nat) (h : l ≠ []) :
    (take_line l).2.length < l.length := by
  have h1 := take_line_split l
  have h2 : 0 < (take_line l).1.length :=
    List.length_pos.mpr (take_line_first_ne_nil l h)
  omega

/-- The `splitlines` recursion, driven by a fuel bounded by the input
length (each extracted line consumes at least one byte). -/
def splitlines_go : Nat → List Nat → List (List Nat)
  | 0, _ => []
  | fuel + 1, bs =>
    if bs = [] then []
    else (take_line bs).1 :: splitlines_go fuel (take_line bs).2

/-- `bytes.splitlines(keepends=True)`. -/
def splitlines_keepends (bs : List Nat) : List (List Nat) :=
  splitlines_go bs.length bs

theorem splitlines_go_congr :
    ∀ (f1 f2 : Nat) (bs : List Nat), bs.length ≤ f1 → bs.length ≤ f2 →
      splitlines_go f1 bs = splitlines_go f2 bs := by
  intro f1
  induction f1 with
  | zero =>
    intro f2 bs h1 h2
    have : bs = [] := List.length_eq_zero.mp (Nat.le_zero.mp h1)
    subst this
    cases f2 <;> simp [splitlines_go]
  | succ f ih =>
    intro f2 bs h1 h2
    cases f2 with
    | zero =>
      have : bs = [] := List.length_eq_zero.mp (Nat.le_zero.mp h2)
      subst this
      simp [splitlines_go]
    | succ f2 =>
      by_cases hbs : bs = []
      · simp [splitlines_go, hbs]
      · have hlt := take_line_rest_lt bs hbs
        simp only [splitlines_go, if_neg hbs]
        congr 1
        exact ih f2 (take_line bs).2 (by omega) (by omega)

theorem splitlines_cons (bs : List Nat) (hbs : bs ≠ []) :
    splitlines_keepends bs =
      (take_line bs).1 :: splitlines_keepends (take_line bs).2 := by
  unfold splitlines_keepends
  cases bs with
  | nil => exact absurd rfl hbs
  | cons c rest =>
    have hlt := take_line_rest_lt (c :: rest) (List.cons_ne_nil c rest)
    simp only [List.length_cons, splitlines_go,
      if_neg (List.cons_ne_nil c rest)]
    congr 1
    exact splitlines_go_congr rest.length (take_line (c :: rest)).2.length
      (take_line (c :: rest)).2 (by simpa using Nat.lt_succ_iff.mp hlt)
      (le_refl _)

/-- One iteration of the read loop for a non-empty block: reassemble the
pending partial line with the block's first part, hold back a trailing
partial part, and emit the complete lines in order. -/
def process_chunk (partline block : List Nat) :
    List (List Nat) × List Nat :=
  match splitlines_keepends block with
  | [] => ([], partline)
  | part :: parts =>
    if part.getLast? = some NL then
      match parts.getLast? with
      | some lastPart =>
        if lastPart.getLast? ≠ some NL then
          ((partline ++ part) :: parts.dropLast, lastPart)
        else ((partline ++ part) :: parts, [])
      | none => ([partline ++ part], [])
    else (parts, partline ++ part)

/-- ASCII whitespace as stripped by `str.rstrip`. -/
def is_space (b : Nat) : Bool :=
  b = 9 || b = 10 || b = 11 || b = 12 || b = 13 || b = 32

/-- Trailing-whitespace strip (`line.rstrip()` after decoding, for the
ASCII byte strings the protocol uses). -/
def rstrip (bs : List Nat) : List Nat :=
  (bs.reverse.dropWhile is_space).reverse

/-- The bytes of an ASCII string literal. -/
def bytes_of (s : String) : List Nat :=
  s.toList.map Char.toNat

/-! ## Line dispatch (`MainControl._process_lines` /
`dispatch_pytest_message`)

A registered handler is modelled by the message names it exposes a method
for, plus the names whose method invocation raises.  `dispatch_go` records
which handlers were invoked (by position) and whether an exception escaped;
the source has no try/except around `method(*dec_args)`, so a raise aborts
the iteration and propagates. -/

/-- A registered pytest-message handler object. -/
structure MsgHandler where
  methods : List String := []
  raises_on : List String := []
deriving DecidableEq, Repr

/-- The observable outcome of one dispatch: which handler positions were
invoked, and either the `handled` flag or an escaped exception. -/
inductive DispatchOutcome
| ok (invoked : List Nat) (handled : Bool)
| raised (invoked : List Nat)
deriving DecidableEq, Repr

/-- The handler positions whose method ran before the outcome. -/
def DispatchOutcome.invoked : DispatchOutcome → List Nat
  | .ok inv _ => inv
  | .raised inv => inv

/-- Whether an exception escaped the dispatch. -/
def DispatchOutcome.is_raised : DispatchOutcome → Bool
  | .ok _ _ => false
  | .raised _ => true

/-- The handler iteration inside `dispatch_pytest_message`. -/
def dispatch_go (name : String) :
    List MsgHandler → Nat → List Nat → Bool → DispatchOutcome
  | [], _, invoked, handled => .ok invoked handled
  | h :: rest, i, invoked, handled =>
    if name ∈ h.methods then
      if name ∈ h.raises_on then .raised (invoked ++ [i])
      else dispatch_go name rest (i + 1) (invoked ++ [i]) true
    else dispatch_go name rest (i + 1) invoked handled

/-- `MainControl.dispatch_pytest_message`: invoke, in registration order,
every handler exposing a method named like the message. -/
def dispatch_pytest_message (handlers : List MsgHandler) (name : String) :
    DispatchOutcome :=
  dispatch_go name handlers 0 [] false

/-- A line as seen by `_process_lines`: a protocol frame (sentinel leader
plus message name) or passthrough text. -/
inductive PipeLine
| frame (name : String)
| text (s : String)
deriving DecidableEq, Repr

/-- The consumer-side bookkeeping `_process_lines` writes to. -/
structure ProcState where
  unhandled_messages : List String := []
  unhandled_log : List String := []
  output : List String := []
deriving DecidableEq, Repr

/-- Process a single line; `none` models an exception escaping from a
handler method (nothing is logged in that case). -/
def process_one (handlers : List MsgHandler) (st : ProcState) :
    PipeLine → Option ProcState
  | .frame name =>
    match dispatch_pytest_message handlers name with
    | .raised _ => none
    | .ok _ handled =>
      if !handled && name ∉ st.unhandled_messages then
        some { st with
          unhandled_messages := st.unhandled_messages ++ [name],
          unhandled_log := st.unhandled_log ++ [name] }
      else some st
  | .text s => some { st with output := st.output ++ [s] }

/-- `_process_lines`: process lines in order; an escaped exception aborts
the loop, returning the unprocessed remainder and an abort flag. -/
def process_lines (handlers : List MsgHandler) (st : ProcState) :
    List PipeLine → ProcState × Bool × List PipeLine
  | [] => (st, false, [])
  | l :: rest =>
    match process_one handlers st l with
    | some st' => process_lines handlers st' rest
    | none => (st, true, rest)

/-! ## Progress grouping (`TestProgressMapper` in `tui/test_progress.py`)

An item carries its nodeid and its script path relative to the root, both
precomputed as display strings (`str(item.path.relative_to(root_path))`
and the same for the path's parent directory). -/

/-- A collected test as the progress mapper consumes it. -/
structure ProgressItem where
  nodeid : String
  rel_name : String
  rel_parent : String
deriving DecidableEq, Repr

/-- Append a value to the list stored for a key, creating the key at the
end of the dict if needed (the `if name not in item_map` / `append`
idiom). -/
def dict_append {α : Type} (key : String) (v : α) :
    List (String × List α) → List (String × List α)
  | [] => [(key, [v])]
  | (k, vs) :: rest =>
    if k = key then (k, vs ++ [v]) :: rest
    else (k, vs) :: dict_append key v rest

/-- Remove a key (`item_map.pop(name)`). -/
def dict_remove {α : Type} (key : String) :
    List (String × α) → List (String × α)
  | [] => []
  | (k, v) :: rest =>
    if k = key then rest else (k, v) :: dict_remove key rest

/-- Group items by a key function, preserving first-seen key order and
within-group arrival order. -/
def group_items (key : ProgressItem → String) (items : List ProgressItem) :
    List (String × List ProgressItem) :=
  items.foldl (fun m it => dict_append (key it) it m) []

/-- `TestProgressMapper.name_width`: the widest group name, default 10. -/
def name_width (item_map : List (String × List ProgressItem)) : Nat :=
  if item_map = [] then 10
  else (item_map.map (fun p => p.1.length)).foldl Nat.max 0

/-- Split a list into consecutive chunks of `space` elements (the
`old_items[:space]` / `old_items[space:]` loop).  The `while old_items:`
loop is driven by a fuel argument bounded by the list length, which is
enough for the positive chunk sizes (`space >= 30`) the caller computes. -/
def chunk_go (space : Nat) : Nat → List ProgressItem →
    List (List ProgressItem)
  | 0, _ => []
  | _, [] => []
  | fuel + 1, l => l.take space :: chunk_go space fuel (l.drop space)

/-- Chunking with the fuel set to the list length. -/
def chunk_list (space : Nat) (l : List ProgressItem) :
    List (List ProgressItem) :=
  chunk_go space l.length l

/-- The grouping state built by the mapper: the group map and the display
label map. -/
structure MapperState where
  item_map : List (String × List ProgressItem) := []
  label_map : List (String × String) := []
deriving DecidableEq, Repr

/-- `TestProgressMapper._split_long_groups`: iterate over a snapshot of the
dict entries; pop each group bigger than the slot budget and append its
numbered chunks (`name[1]`, `name[2]`, ...) at the end of the dict, the
first chunk keeping `name` as display label and later chunks getting an
empty label.  (The parallel `item_to_group_name` index is not consumed by
any claim and is not modelled.) -/
def split_long_groups (width : Nat)
    (st : MapperState) : MapperState :=
  let space := Nat.max 30 (width - name_width st.item_map - 9)
  st.item_map.foldl (fun acc (p : String × List ProgressItem) =>
    if p.2.length > space then
      let numbered := (List.enumFrom 1 (chunk_list space p.2)).map
        (fun c => (p.1 ++ "[" ++ toString c.1 ++ "]", c.1, c.2))
      { item_map := numbered.foldl (fun m q => dict_set q.1 q.2.2 m)
          (dict_remove p.1 acc.item_map),
        label_map := numbered.foldl (fun lm q =>
          dict_set q.1 (if q.2.1 = 1 then p.1 else "") lm) acc.label_map }
    else acc) st

/-- `get_key`: interpret a trailing `[n]` suffix as a numeric sort-key
component (the `(.*)\[(\d+)\]$` match); names without the suffix map to
`(name, 0)`. -/
def get_key (name : String) : String × Nat :=
  let cs := name.toList
  if cs.getLast? = some ']' then
    let rbody := cs.dropLast.reverse
    let rdigits := rbody.takeWhile Char.isDigit
    if rdigits ≠ [] && (rbody.drop rdigits.length).head? = some '[' then
      ((rbody.drop (rdigits.length + 1)).reverse.asString,
       rdigits.reverse.foldl (fun n c => n * 10 + (c.toNat - 48)) 0)
    else (name, 0)
  else (name, 0)

/-- Lexicographic code-point comparison of character lists (Python's
string `<`). -/
def chars_lt : List Char → List Char → Bool
  | [], [] => false
  | [], _ :: _ => true
  | _ :: _, [] => false
  | c :: cs, d :: ds =>
    if c.toNat < d.toNat then true
    else if d.toNat < c.toNat then false
    else chars_lt cs ds

/-- Python string `<`. -/
def str_lt (a b : String) : Bool :=
  chars_lt a.toList b.toList

/-- Sort-key comparison: Python tuple `(str, int)` ordering. -/
def key_le (a b : String × Nat) : Bool :=
  str_lt a.1 b.1 || (a.1 == b.1 && a.2 ≤ b.2)

/-- Insert a name after all existing entries with a smaller-or-equal key
(so the sort below is stable, like Python's `sorted`). -/
def insert_by_key (x : String) : List String → List String
  | [] => [x]
  | y :: ys =>
    if key_le (get_key y) (get_key x) then y :: insert_by_key x ys
    else x :: y :: ys

/-- `sorted(item_map, key=get_key)`: a stable sort of the group names by
`get_key`. -/
def sort_by_key (names : List String) : List String :=
  names.foldl (fun acc n => insert_by_key n acc) []

/-- `TestProgressMapper.__init__`: group by script, split long groups,
regroup by directory if too many groups for the height, and sort the final
dict by `get_key`. -/
def mapper_init (width height : Nat) (items : List ProgressItem) :
    MapperState :=
  let st1 := split_long_groups width
    { item_map := group_items (fun it => it.rel_name) items }
  let st2 :=
    if st1.item_map.length > height - 6 then
      split_long_groups width
        { item_map := group_items (fun it => it.rel_parent) items }
    else st1
  let sorted_names := sort_by_key (st2.item_map.map Prod.fst)
  let sorted_map := sorted_names.filterMap
    (fun n => (dict_get n st2.item_map).map (fun v => (n, v)))
  { st2 with item_map := sorted_map }

/-! ## Wire codec (`protocol.py`)

Python values are embedded as `PyVal`: scalars, engine-native objects of a
recognized kind (`obj`), their whitelisted-attribute snapshots (`rep`, a
`Representation` instance), `TestID` instances, lists and tuples.  Objects
and representations carry their attribute dict as an association list.
`encode` performs the `repr_object` conversion; the pickle-then-hex
transport pair is modelled as the identity on this value domain (pickle is
a faithful serializer) and the `fromhex` failure diagnostics are outside
the claims.  Encoding failure (`repr_error` / `repr_type_error` raised for
an unrepresentable value) is `Option.none`; so is an `AttributeError`
escaping from `convert_nodeids` during decoding. -/

/-- The recognized object kinds: one per `Representation` subclass in the
source (`base` is the `Representation` base class itself, whose `_type` is
`NoneType`). -/
inductive RKind
| node
| collector
| item
| module
| function
| coroutine
| package
| dir
| cls
| config
| collectReport
| testReport
| session
| base
deriving DecidableEq, Repr

/-- An attribute-encoding handler from a `_attrs` table. -/
inductive AttrHandler
| identity
| drop
| optional_value
| result_list
deriving DecidableEq, Repr

/-- The embedded Python value domain. -/
inductive PyVal
| none
| str (s : String)
| int (n : Int)
| bool (b : Bool)
| testid (s : String) (root : PyVal)
| obj (kind : RKind) (attrs : List (String × PyVal))
| rep (kind : RKind) (attrs : List (String × PyVal))
| list (elems : List PyVal)
| tuple (elems : List PyVal)
deriving Repr

/-- `NodeRepresentation._attrs`. -/
def node_attrs : List (String × AttrHandler) :=
  [("name", .identity), ("parent", .optional_value),
   ("config", .optional_value), ("session", .optional_value),
   ("fspath", .drop), ("path", .identity), ("nodeid", .identity)]

/-- `FunctionRepresentation._attrs`. -/
def function_attrs : List (String × AttrHandler) :=
  node_attrs ++ [("callobj", .identity), ("originalname", .identity)]

/-- `ConfigRepresentation._attrs`. -/
def config_attrs : List (String × AttrHandler) :=
  [("name", .identity), ("parent", .optional_value),
   ("session", .optional_value), ("fspath", .drop), ("path", .identity),
   ("option", .identity), ("_rootpath", .identity)]

/-- `CollectReportRepresentation._attrs`. -/
def collect_report_attrs : List (String × AttrHandler) :=
  [("nodeid", .identity), ("outcome", .identity), ("longrepr", .drop),
   ("when", .identity), ("result", .result_list), ("sections", .identity),
   ("pickled_rich_traceback", .identity)]

/-- `TestReportRepresentation._attrs`. -/
def test_report_attrs : List (String × AttrHandler) :=
  [("duration", .identity), ("keywords", .drop), ("location", .identity),
   ("longrepr", .drop), ("nodeid", .identity), ("outcome", .identity),
   ("pickled_rich_traceback", .identity), ("sections", .identity),
   ("start", .identity), ("stop", .identity), ("user_properties", .drop),
   ("wasxfail", .identity), ("when", .identity), ("worker_id", .identity)]

/-- `SessionRepresentation._attrs`. -/
def session_attrs : List (String × AttrHandler) :=
  [("config", .optional_value)]

/-- The whitelist (`_attrs`) for each kind. -/
def kind_attrs : RKind → List (String × AttrHandler)
  | .function | .coroutine => function_attrs
  | .config => config_attrs
  | .collectReport => collect_report_attrs
  | .testReport => test_report_attrs
  | .session => session_attrs
  | .base => []
  | _ => node_attrs

theorem dict_get_sizeOf {name : String} :
    ∀ (attrs : List (String × PyVal)) (v : PyVal),
      dict_get name attrs = some v → sizeOf v < sizeOf attrs := by
  intro attrs
  induction attrs with
  | nil => intro v h; simp [dict_get] at h
  | cons p rest ih =>
    intro v h
    rcases p with ⟨k, w⟩
    by_cases hk : k = name
    · simp [dict_get, hk] at h
      subst h
      simp
      omega
    · simp [dict_get, hk] at h
      have := ih v h
      simp
      omega

mutual

/-- `repr_object`: convert an object to its `Representation` based form if
its type has a handler, otherwise leave it unchanged. -/
def repr_object : PyVal → Option PyVal
  | .none => some .none
  | .obj k attrs => (encode_attrs (kind_attrs k) attrs).map (PyVal.rep k)
  | .list vs => (repr_seq vs).map PyVal.list
  | .tuple vs => (repr_seq vs).map PyVal.tuple
  | v => some v
termination_by v => (sizeOf v, 3)

/-- `repr_sequence`: convert every element via `repr_object`, preserving
the list/tuple distinction (done at the call sites here). -/
def repr_seq : List PyVal → Option (List PyVal)
  | [] => some []
  | v :: rest =>
    match repr_object v, repr_seq rest with
    | some w, some ws => some (w :: ws)
    | _, _ => Option.none
termination_by vs => (sizeOf vs, 4)

/-- `Representation.encode`: snapshot the whitelisted attributes that are
present on the object (`suppress(AttributeError)` skips absent ones),
applying each attribute's handler. -/
def encode_attrs :
    List (String × AttrHandler) → List (String × PyVal) →
      Option (List (String × PyVal))
  | [], _ => some []
  | (name, h) :: spec, attrs =>
    match hv : dict_get name attrs with
    | some v =>
      match apply_handler h v, encode_attrs spec attrs with
      | some w, some ws => some ((name, w) :: ws)
      | _, _ => Option.none
    | Option.none => encode_attrs spec attrs
termination_by spec attrs => (sizeOf attrs, sizeOf spec)
decreasing_by
  all_goals
    first
      | decreasing_tactic
      | (simp_wf
         apply Prod.Lex.left
         exact dict_get_sizeOf attrs v hv)

/-- Apply one `_attrs` handler to an attribute value. -/
def apply_handler : AttrHandler → PyVal → Option PyVal
  | .identity, v => some v
  | .drop, _ => some .none
  | .optional_value, v => optional_value v
  | .result_list, v =>
    match v with
    | .list vs => (result_list vs).map PyVal.list
    | .tuple vs => (result_list vs).map PyVal.list
    | _ => Option.none
termination_by h v => (sizeOf v, 3)

/-- `optional_value`: `None` passes through; otherwise the value's type
must have a handler in `handler_map`, else `repr_error` is raised. -/
def optional_value : PyVal → Option PyVal
  | .none => some .none
  | .obj k attrs => (encode_attrs (kind_attrs k) attrs).map (PyVal.rep k)
  | .list vs => (repr_seq vs).map PyVal.list
  | .tuple vs => (repr_seq vs).map PyVal.tuple
  | _ => Option.none
termination_by v => (sizeOf v, 2)

/-- `result_list`: encode each element through its `handler_map` entry,
raising `repr_error` for an element type without one.  (`None` elements
hit the base `Representation.encode` entry keyed by `NoneType` and come
back as an empty base representation.) -/
def result_list : List PyVal → Option (List PyVal)
  | [] => some []
  | el :: rest =>
    match el with
    | .obj k attrs =>
      match encode_attrs (kind_attrs k) attrs, result_list rest with
      | some ws, some rs => some (.rep k ws :: rs)
      | _, _ => Option.none
    | .none =>
      (result_list rest).map (fun rs => .rep .base [] :: rs)
    | .list vs =>
      match repr_seq vs, result_list rest with
      | some ws, some rs => some (.list ws :: rs)
      | _, _ => Option.none
    | .tuple vs =>
      match repr_seq vs, result_list rest with
      | some ws, some rs => some (.tuple ws :: rs)
      | _, _ => Option.none
    | _ => Option.none
termination_by els => (sizeOf els, 2)

end

/-- The string payload of a nodeid attribute (`TestID` is a `str`
subclass, so an already-converted nodeid re-converts from its own string
value).  Conversion of non-string nodeids (which Python's `str()` would
stringify) is outside the model: no encoded report carries one. -/
def nodeid_string : PyVal → Option String
  | .str s => some s
  | .testid s _ => some s
  | _ => Option.none

/-- The kinds whose instances `isinstance` matches against
`NodeRepresentation` or `TestReportRepresentation` in `convert_nodeids`
(`TestReportRepresentation` is itself a `NodeRepresentation` subclass). -/
def is_node_family : RKind → Bool
  | .node | .collector | .item | .module | .function | .coroutine
  | .package | .dir | .cls | .testReport => true
  | _ => false

mutual

/-- `convert_nodeids`: rewrite nodeid strings to `TestID` instances inside
a decoded object, updating the global `rootpath` when a config
representation is seen; the rootpath is threaded explicitly, and a `none`
result models the `AttributeError` the source would raise when a
convertible representation lacks the attribute being read. -/
def convert_nodeids (root : PyVal) : PyVal → Option (PyVal × PyVal)
  | .rep .config attrs =>
    match dict_get "_rootpath" attrs with
    | some p => some (p, .rep .config attrs)
    | Option.none => Option.none
  | .rep .collectReport attrs =>
    match dict_get "nodeid" attrs with
    | some nv =>
      match nodeid_string nv with
      | some s =>
        match hres : dict_get "result" attrs with
        | some (.list items) =>
          match convert_list root items with
          | some (root2, items2) =>
            some (root2, .rep .collectReport
              (dict_set "result" (.list items2)
                (dict_set "nodeid" (.testid s root) attrs)))
          | Option.none => Option.none
        | _ => Option.none
      | Option.none => Option.none
    | Option.none => Option.none
  | .rep k attrs =>
    if is_node_family k then
      match dict_get "nodeid" attrs with
      | some nv =>
        match nodeid_string nv with
        | some s =>
          some (root, .rep k (dict_set "nodeid" (.testid s root) attrs))
        | Option.none => Option.none
      | Option.none => Option.none
    else some (root, .rep k attrs)
  | .list vs =>
    match convert_list root vs with
    | some (root2, ws) => some (root2, .list ws)
    | Option.none => Option.none
  | .tuple vs =>
    match convert_list root vs with
    | some (root2, ws) => some (root2, .tuple ws)
    | Option.none => Option.none
  | v => some (root, v)
termination_by v => sizeOf v
decreasing_by
  all_goals
    first
      | decreasing_tactic
      | (have hsz := dict_get_sizeOf attrs (.list items) hres
         simp at hsz ⊢
         omega)

/-- Convert the elements of a list in order, threading the rootpath. -/
def convert_list (root : PyVal) : List PyVal → Option (PyVal × List PyVal)
  | [] => some (root, [])
  | v :: rest =>
    match convert_nodeids root v with
    | some (root1, w) =>
      match convert_list root1 rest with
      | some (root2, ws) => some (root2, w :: ws)
      | Option.none => Option.none
    | Option.none => Option.none
termination_by vs => sizeOf vs

end

/-- `encode`: convert the value to its `Representation` based form and
serialize it (pickle + hex modelled as the identity on the value
domain). -/
def encode (v : PyVal) : Option PyVal :=
  repr_object v

/-- `decode`: deserialize (identity in the model) and rehydrate nodeids;
returns the updated global `rootpath` alongside the decoded value. -/
def decode (root : PyVal) (enc : PyVal) : Option (PyVal × PyVal) :=
  convert_nodeids root enc

mutual

/-- Python `==` on the value domain: `TestID` is a `str` subclass and
compares equal to its string value regardless of its rootpath; lists and
tuples compare elementwise (never to each other); objects and
representations compare by identity, so two distinct copies compare
unequal.  (Python's numeric `bool`/`int` cross-equality is not needed by
any claim and is not modelled.) -/
def pyEq : PyVal → PyVal → Bool
  | .none, .none => true
  | .str a, .str b => a = b
  | .testid a _, .str b => a = b
  | .str a, .testid b _ => a = b
  | .testid a _, .testid b _ => a = b
  | .int a, .int b => a = b
  | .bool a, .bool b => a = b
  | .list as, .list bs => pyEqList as bs
  | .tuple as, .tuple bs => pyEqList as bs
  | _, _ => false

/-- Elementwise Python `==` on sequences. -/
def pyEqList : List PyVal → List PyVal → Bool
  | [], [] => true
  | a :: as, b :: bs => pyEq a b && pyEqList as bs
  | _, _ => false

end

/-- The handler the whitelist of kind `k` assigns to attribute `name`. -/
def attr_handler (k : RKind) (name : String) : Option AttrHandler :=
  dict_get name (kind_attrs k)

/-- The attribute dict of a decoded representation. -/
def rep_attrs : PyVal → List (String × PyVal)
  | .rep _ attrs => attrs
  | _ => []

/-- Kinds whose decoded representations get their `nodeid` rehydrated. -/
def is_convertible (k : RKind) : Bool :=
  is_node_family k || k == .collectReport

/-! ## Concrete inputs used by the theorems -/

/-- A record holding only a passing call report. -/
def call_only_record : NodeResult :=
  { started := true, setup := none,
    call := some { outcome := .passed, wasxfail := false },
    teardown := none }

/-- The same record after its teardown report arrives. -/
def finished_record : NodeResult :=
  { started := true, setup := some { outcome := .passed, wasxfail := false },
    call := some { outcome := .passed, wasxfail := false },
    teardown := some { outcome := .passed, wasxfail := false } }

/-- A collection report carrying two test functions. -/
def two_function_report : CollectReport :=
  { nodeid := "tests/test_a.py", outcome := .passed,
    result := [.function "tests/test_a.py::test_one",
               .function "tests/test_a.py::test_two"] }

/-- A collection report carrying one test function. -/
def one_function_report : CollectReport :=
  { nodeid := "tests/test_b.py", outcome := .passed,
    result := [.function "tests/test_b.py::test_only"] }

/-- A teardown report for the single test of `one_function_report`. -/
def teardown_report : TestReport :=
  { nodeid := "tests/test_b.py::test_only", when := .teardown,
    outcome := .passed, wasxfail := false }

/-- The group name of the 200-test grouping scenario (21 characters, so
the slot budget on an 80-column surface is `max(30, 80 - 21 - 9) = 50`). -/
def c7_name : String := "tests/test_serial_.py"

/-- 200 tests collected from one source file. -/
def c7_items : List ProgressItem :=
  (List.range 200).map (fun i =>
    { nodeid := toString i, rel_name := c7_name, rel_parent := "tests" })

/-- A registered handler whose `proto_test_report` method raises. -/
def raising_handler : MsgHandler :=
  { methods := ["proto_test_report"], raises_on := ["proto_test_report"] }

/-- A later registered handler exposing the same method (well-behaved). -/
def second_handler : MsgHandler :=
  { methods := ["proto_test_report"] }

/-- A handler exposing only `proto_session_start`. -/
def session_only_handler : MsgHandler :=
  { methods := ["proto_session_start"] }

/-- A test report object as fed to the round-trip: a whitelisted kind with
a nodeid and a `keywords` attribute (whose handler is `drop`). -/
def roundtrip_input : PyVal :=
  .obj .testReport
    [("nodeid", .str "tests/test_a.py::test_one"), ("keywords", .str "kw")]

/-! # Theorems -/

/-! ## C2: outcome classification cascade -/

/-- Claim C2: the derived state is computed by a first-match cascade in
exactly the priority order not_started, setup_running, running,
teardown_running, xfailed, xpassed, setup_errored, teardown_errored,
failed, passed, skipped; in particular a completed record whose call
report failed and carries the expected-failure marker classifies as
`xfailed` (never `failed`), incomplete-lifecycle states being decided
first. -/
theorem c2_outcome_cascade (r : NodeResult) :
    r.state = first_match_state r ∧
    (r.started = true → r.setup.isSome = true → r.teardown.isSome = true →
     ∀ c : PhaseReport, r.call = some c → c.outcome = .failed →
     c.wasxfail = true → r.state = "xfailed") := by
  constructor
  · rfl
  · rintro h1 h2 h3 c h4 h5 h6
    obtain ⟨st, pk, su, ca, td⟩ := r
    simp only at h1 h4
    subst h1 h4
    rcases su with _ | s
    · simp at h2
    rcases td with _ | t
    · simp at h3
    rcases c with ⟨o, w⟩
    simp only at h5 h6
    subst h5 h6
    simp [NodeResult.state, NodeResult.xfailed_report, NodeResult.match_report]

/-- Witness for C2 at a concrete completed xfail record. -/
theorem c2_outcome_cascade_witness :
    ({ started := true, setup := some { outcome := .passed, wasxfail := false },
       call := some { outcome := .failed, wasxfail := true },
       teardown := some { outcome := .passed, wasxfail := false } } :
      NodeResult).state = "xfailed" :=
  (c2_outcome_cascade _).2 rfl rfl rfl _ rfl rfl rfl

/-! ## C9: membership in the `passed` query view -/

/-- Counterexample to claim C9: a record whose only stored phase report is
a passing call report satisfies the claim's premise, yet the aggregator's
`passed` view is empty, because the view also requires `finished` (a
stored teardown report). -/
theorem c9_counterexample :
    call_only_record.call =
      some { outcome := .passed, wasxfail := false } ∧
    call_only_record.setup = none ∧ call_only_record.teardown = none ∧
    call_only_record.passed_report.isSome = true ∧
    TestState.passed { items := [("tests/test_a.py::test_one",
      call_only_record)] } = [] := by
  refine ⟨rfl, rfl, rfl, rfl, ?_⟩
  decide

/-- Amended claim C9: a record with a passing call report, no
expected-failure marker and a stored teardown report (finished) is a
member of the `passed` view; without the teardown report it is not (see
the counterexample). -/
theorem c9_passed_view (ts : TestState) (nid : String) (r : NodeResult)
    (hmem : (nid, r) ∈ ts.items)
    (hcall : r.passed_report.isSome = true)
    (hx : r.xpassed_report.isNone = true)
    (hfin : r.finished = true) :
    r ∈ ts.passed := by
  unfold TestState.passed
  refine List.mem_filter.mpr ⟨?_, ?_⟩
  · exact List.mem_map_of_mem Prod.snd hmem
  · simp [hcall, hx, hfin]

/-- Witness for C9 at a concrete finished passing record. -/
theorem c9_passed_view_witness :
    finished_record ∈ TestState.passed
      { items := [("tests/test_a.py::test_one", finished_record)] } :=
  c9_passed_view _ "tests/test_a.py::test_one" _ (by decide) (by decide)
    (by decide) (by decide)

/-! ## C4: idempotent collection registration -/

/-- Counterexample to claim C4: a single collection report can register
more than one test, so two calls with the same report increase the record
count by the number of `Function` entries in the report (here two), not by
exactly one.  The duplicate detection itself behaves as claimed: the
second call reports `(added, failed) = (false, false)`. -/
theorem c4_counterexample :
    (TestState.add_collected_tests
      (TestState.add_collected_tests {} two_function_report).1
      two_function_report).1.items.length = 2 ∧
    (TestState.add_collected_tests
      (TestState.add_collected_tests {} two_function_report).1
      two_function_report).2 = (false, false) ∧
    ¬((TestState.add_collected_tests
        (TestState.add_collected_tests {} two_function_report).1
        two_function_report).1.items.length =
      (({} : TestState).items.length + 1)) := by
  refine ⟨by decide, by decide, by decide⟩

theorem set_add_mem (x : String) (s : List String) : x ∈ set_add x s := by
  unfold set_add
  split
  · assumption
  · simp

theorem set_add_of_mem {x : String} {s : List String} (h : x ∈ s) :
    set_add x s = s := by
  simp [set_add, h]

theorem add_collected_processed (ts : TestState) (r : CollectReport) :
    (TestState.add_collected_tests ts r).1.processed_collect_reports =
      set_add r.nodeid ts.processed_collect_reports := by
  by_cases hseen : ts.collect_report_already_seen r = true
  · simp [TestState.add_collected_tests, hseen]
  · simp [TestState.add_collected_tests, hseen]
    rcases r with ⟨nid, outc, res⟩
    cases outc <;> rfl

/-- Amended claim C4: registration is idempotent keyed by the report's
NodeID: a second call with a report carrying the same NodeID is detected
via the dedup set, returns `(added, failed) = (false, false)` and leaves
the aggregator state (in particular the test-record map) unchanged, so two
calls add exactly the records the first call adds — one per distinct
`Function` nodeid in the report, which need not be one. -/
theorem c4_idempotent (ts : TestState) (r r2 : CollectReport)
    (hnid : r2.nodeid = r.nodeid) :
    TestState.add_collected_tests
      (TestState.add_collected_tests ts r).1 r2 =
    ((TestState.add_collected_tests ts r).1, false, false) := by
  set s1 := (TestState.add_collected_tests ts r).1 with hs1
  have hmem : r2.nodeid ∈ s1.processed_collect_reports := by
    rw [hs1, add_collected_processed, hnid]
    exact set_add_mem r.nodeid ts.processed_collect_reports
  have hseen : s1.collect_report_already_seen r2 = true := by
    unfold TestState.collect_report_already_seen
    exact decide_eq_true hmem
  simp only [TestState.add_collected_tests, hseen, if_true,
    eq_self_iff_true]
  rw [set_add_of_mem hmem]

/-- Witness for C4 at a concrete report. -/
theorem c4_idempotent_witness :
    TestState.add_collected_tests
      (TestState.add_collected_tests {} one_function_report).1
      one_function_report =
    ((TestState.add_collected_tests {} one_function_report).1,
      false, false) :=
  c4_idempotent {} one_function_report one_function_report rfl

/-! ## C10: the `finished_count` cache invariant -/

/-- Claim C10 names the invariant the source code itself documents for
`finished_count` (`len([res for res in self.items.values() if
res.finished])`), but the code violates it: `prepare_for_run` with an
empty selection clears `items` without zeroing `finished_count` (and
`NodeResult.reset` clears teardown reports without decrementing it).
Evaluating the code at the failing input: collect one test, store its
teardown report (count and recomputed value both 1), then
`prepare_for_run(set())` — the counter stays 1 while the recomputed value
is 0. -/
theorem c10_finished_count_violation :
    (TestState.prepare_for_run
      (TestState.store_test_report
        (TestState.add_collected_tests {} one_function_report).1
        teardown_report).1 []).finished_count = 1 ∧
    TestState.finished_count_spec
      (TestState.prepare_for_run
        (TestState.store_test_report
          (TestState.add_collected_tests {} one_function_report).1
          teardown_report).1 []) = 0 ∧
    TestState.finished_count_spec
      (TestState.store_test_report
        (TestState.add_collected_tests {} one_function_report).1
        teardown_report).1 = 1 := by
  refine ⟨by decide, by decide, by decide⟩

/-! ## C3: stream reconstruction across chunk boundaries -/

theorem take_line_prepend (p b : List Nat) (hb : b ≠ [])
    (h10 : (10 : Nat) ∉ p) (h13 : (13 : Nat) ∉ p) :
    take_line (p ++ b) = (p ++ (take_line b).1, (take_line b).2) := by
  induction p with
  | nil => simp
  | cons c cs ih =>
    have hc13 : ¬(c = 13) := fun h => h13 (by simp [h])
    have hc10 : ¬(c = 10) := fun h => h10 (by simp [h])
    have h10' : (10 : Nat) ∉ cs := fun h => h10 (List.mem_cons_of_mem _ h)
    have h13' : (13 : Nat) ∉ cs := fun h => h13 (List.mem_cons_of_mem _ h)
    simp only [List.cons_append, take_line, if_neg hc13, if_neg hc10,
      List.append_eq]
    rw [ih h10' h13']

theorem splitlines_prepend (p b : List Nat) (hb : b ≠ [])
    (h10 : (10 : Nat) ∉ p) (h13 : (13 : Nat) ∉ p) :
    splitlines_keepends (p ++ b) =
      (p ++ (take_line b).1) :: splitlines_keepends (take_line b).2 := by
  have hpb : p ++ b ≠ [] := by simp [hb]
  rw [splitlines_cons _ hpb, take_line_prepend p b hb h10 h13]

theorem process_chunk_prepend (p b : List Nat) (hb : b ≠ [])
    (h10 : (10 : Nat) ∉ p) (h13 : (13 : Nat) ∉ p) :
    process_chunk p b = process_chunk [] (p ++ b) := by
  unfold process_chunk
  rw [splitlines_prepend p b hb h10 h13, splitlines_cons b hb]
  dsimp only
  rw [List.getLast?_append_of_ne_nil p (take_line_first_ne_nil b hb)]
  rfl

/-- Claim C3: a trailing partial line left by one read is prepended to
the next read's data before re-splitting (for ordinary newline-terminated
traffic: no line-break byte pending in the partial line), and complete
lines are delivered in arrival order; concretely, feeding `"abc"` then
`"def\n"` buffers the first chunk and delivers exactly the one line
`"abcdef"` on the second, while feeding `"abc\ndef\n"` delivers the two
lines `"abc"` and `"def"`, in that order, from that one read. -/
theorem c3_chunk_reassembly :
    (∀ partline block : List Nat, block ≠ [] → (10 : Nat) ∉ partline →
      (13 : Nat) ∉ partline →
      process_chunk partline block = process_chunk [] (partline ++ block)) ∧
    process_chunk [] (bytes_of "abc") = ([], bytes_of "abc") ∧
    process_chunk (bytes_of "abc") (bytes_of "def\n") =
      ([bytes_of "abcdef\n"], []) ∧
    (process_chunk (bytes_of "abc") (bytes_of "def\n")).1.map rstrip =
      [bytes_of "abcdef"] ∧
    process_chunk [] (bytes_of "abc\ndef\n") =
      ([bytes_of "abc\n", bytes_of "def\n"], []) ∧
    (process_chunk [] (bytes_of "abc\ndef\n")).1.map rstrip =
      [bytes_of "abc", bytes_of "def"] := by
  refine ⟨process_chunk_prepend, by decide, by decide, by decide,
    by decide, by decide⟩

/-- Witness for C3's general clause at the concrete chunk pair. -/
theorem c3_chunk_reassembly_witness :
    process_chunk (bytes_of "abc") (bytes_of "def\n") =
      process_chunk [] (bytes_of "abc" ++ bytes_of "def\n") :=
  c3_chunk_reassembly.1 (bytes_of "abc") (bytes_of "def\n")
    (by decide) (by decide) (by decide)

/-! ## C6: handler exceptions during dispatch -/

theorem dispatch_go_raise (name : String) (post : List MsgHandler)
    (h : MsgHandler) (hm : name ∈ h.methods) (hr : name ∈ h.raises_on) :
    ∀ (pre : List MsgHandler) (i : Nat) (inv : List Nat) (hd : Bool),
      (∀ g ∈ pre, name ∉ g.raises_on) →
      (dispatch_go name (pre ++ h :: post) i inv hd).is_raised = true ∧
      ∀ j ∈ (dispatch_go name (pre ++ h :: post) i inv hd).invoked,
        j ∈ inv ∨ j ≤ i + pre.length := by
  intro pre
  induction pre with
  | nil =>
    intro i inv hd _
    simp only [List.nil_append, dispatch_go, if_pos hm, if_pos hr]
    refine ⟨rfl, fun j hj => ?_⟩
    rcases List.mem_append.mp hj with hj1 | hj2
    · exact Or.inl hj1
    · right
      simp only [List.mem_singleton] at hj2
      omega
  | cons g pre ih =>
    intro i inv hd hpre
    have hgr : name ∉ g.raises_on := hpre g (List.mem_cons_self g pre)
    have hpre2 : ∀ g2 ∈ pre, name ∉ g2.raises_on :=
      fun g2 hg2 => hpre g2 (List.mem_cons_of_mem g hg2)
    by_cases hgm : name ∈ g.methods
    · simp only [List.cons_append, dispatch_go, if_pos hgm, if_neg hgr]
      obtain ⟨hrs, hinv⟩ := ih (i + 1) (inv ++ [i]) true hpre2
      refine ⟨hrs, fun j hj => ?_⟩
      rcases hinv j hj with hj1 | hj2
      · rcases List.mem_append.mp hj1 with hj3 | hj4
        · exact Or.inl hj3
        · right
          simp only [List.mem_singleton] at hj4
          simp
          omega
      · right
        simp
        omega
    · simp only [List.cons_append, dispatch_go, if_neg hgm]
      obtain ⟨hrs, hinv⟩ := ih (i + 1) inv hd hpre2
      refine ⟨hrs, fun j hj => ?_⟩
      rcases hinv j hj with hj1 | hj2
      · exact Or.inl hj1
      · right
        simp
        omega

/-- Counterexample to claim C6: there is no try/except around the handler
invocation, so with a raising handler registered before a well-behaved one
the dispatch raises after invoking only handler 0 (handler 1 is never
invoked), the exception aborts the line loop (the second line stays
unprocessed), and nothing is logged (the state is returned untouched). -/
theorem c6_counterexample :
    dispatch_pytest_message [raising_handler, second_handler]
      "proto_test_report" = .raised [0] ∧
    process_lines [raising_handler, second_handler] {}
      [.frame "proto_test_report", .frame "proto_session_start"] =
      ({}, true, [.frame "proto_session_start"]) := by
  refine ⟨by decide, by decide⟩

/-- Amended claim C6: an exception raised by one handler's method
propagates out of the dispatcher: handlers registered after the raising
one are not invoked for that message, the stream-reading loop stops (the
remaining lines of the batch are not processed), and nothing is logged —
the bookkeeping state is returned exactly as it was. -/
theorem c6_exception_propagation (pre : List MsgHandler) (h : MsgHandler)
    (post : List MsgHandler) (name : String) (st : ProcState)
    (rest : List PipeLine)
    (hpre : ∀ g ∈ pre, name ∉ g.raises_on)
    (hm : name ∈ h.methods) (hr : name ∈ h.raises_on) :
    (dispatch_pytest_message (pre ++ h :: post) name).is_raised = true ∧
    (∀ j ∈ (dispatch_pytest_message (pre ++ h :: post) name).invoked,
      j ≤ pre.length) ∧
    process_lines (pre ++ h :: post) st (.frame name :: rest) =
      (st, true, rest) := by
  obtain ⟨hrs, hinv⟩ :=
    dispatch_go_raise name post h hm hr pre 0 [] false hpre
  have hrs2 : (dispatch_pytest_message
      (pre ++ h :: post) name).is_raised = true := hrs
  refine ⟨hrs, fun j hj => ?_, ?_⟩
  · rcases hinv j hj with hj1 | hj2
    · simp at hj1
    · omega
  · cases hd : dispatch_pytest_message (pre ++ h :: post) name with
    | ok inv hdl =>
      rw [hd] at hrs2
      simp [DispatchOutcome.is_raised] at hrs2
    | raised inv =>
      simp [process_lines, process_one, hd]

/-- Witness for C6 at the concrete raising configuration. -/
theorem c6_exception_propagation_witness :
    process_lines ([] ++ raising_handler :: [second_handler]) {}
      [.frame "proto_test_report", .frame "proto_session_start"] =
      ({}, true, [.frame "proto_session_start"]) :=
  (c6_exception_propagation [] raising_handler [second_handler]
    "proto_test_report" {} [.frame "proto_session_start"]
    (by simp) (by decide) (by decide)).2.2

/-! ## C8: unknown message names are non-fatal and logged once -/

theorem dispatch_go_unmatched (name : String) :
    ∀ (hs : List MsgHandler) (i : Nat) (inv : List Nat) (hd : Bool),
      (∀ g ∈ hs, name ∉ g.methods) →
      dispatch_go name hs i inv hd = .ok inv hd := by
  intro hs
  induction hs with
  | nil => intro i inv hd _; rfl
  | cons g rest ih =>
    intro i inv hd hun
    have hg : name ∉ g.methods := hun g (List.mem_cons_self g rest)
    simp only [dispatch_go, if_neg hg]
    exact ih (i + 1) inv hd (fun g2 hg2 => hun g2 (List.mem_cons_of_mem g hg2))

theorem process_lines_unmatched :
    ∀ (lines : List PipeLine) (handlers : List MsgHandler) (st : ProcState),
      (∀ nm, PipeLine.frame nm ∈ lines → ∀ g ∈ handlers, nm ∉ g.methods) →
      (∀ nm, st.unhandled_log.count nm =
        (if nm ∈ st.unhandled_messages then 1 else 0)) →
      (process_lines handlers st lines).2.1 = false ∧
      (process_lines handlers st lines).2.2 = [] ∧
      (∀ nm, (process_lines handlers st lines).1.unhandled_log.count nm =
        (if nm ∈ (process_lines handlers st lines).1.unhandled_messages
         then 1 else 0)) := by
  intro lines
  induction lines with
  | nil =>
    intro handlers st _ hinv
    exact ⟨rfl, rfl, hinv⟩
  | cons l rest ih =>
    intro handlers st hun hinv
    have hrest : ∀ nm, PipeLine.frame nm ∈ rest → ∀ g ∈ handlers,
        nm ∉ g.methods :=
      fun nm hmem => hun nm (List.mem_cons_of_mem l hmem)
    cases l with
    | text s =>
      have hone : process_one handlers st (.text s) =
          some { st with output := st.output ++ [s] } := rfl
      simp only [process_lines, hone]
      exact ih handlers { st with output := st.output ++ [s] } hrest hinv
    | frame nm =>
      have hnm : ∀ g ∈ handlers, nm ∉ g.methods :=
        hun nm (List.mem_cons_self _ rest)
      have hdisp := dispatch_go_unmatched nm handlers 0 [] false hnm
      by_cases hmem : nm ∈ st.unhandled_messages
      · have hone : process_one handlers st (.frame nm) = some st := by
          simp [process_one, dispatch_pytest_message, hdisp, hmem]
        simp only [process_lines, hone]
        exact ih handlers st hrest hinv
      · have hone : process_one handlers st (.frame nm) =
            some { st with
              unhandled_messages := st.unhandled_messages ++ [nm],
              unhandled_log := st.unhandled_log ++ [nm] } := by
          simp [process_one, dispatch_pytest_message, hdisp, hmem]
        simp only [process_lines, hone]
        apply ih handlers _ hrest
        intro nm2
        by_cases hnm2 : nm2 = nm
        · subst hnm2
          have h0 := hinv nm2
          rw [if_neg hmem] at h0
          simp [List.count_append, h0]
        · have h0 := hinv nm2
          have hne : nm2 ∈ st.unhandled_messages ++ [nm] ↔
              nm2 ∈ st.unhandled_messages := by
            simp [hnm2]
          simp only [List.count_append, hne, h0]
          simp [List.count_singleton', hnm2]

/-- Claim C8: a protocol frame whose message name matches no handler
method is never fatal — the whole batch of lines is processed without
abort — and each unmatched name is logged at most once over the run,
however many frames carry it. -/
theorem c8_unmatched_logged_once (handlers : List MsgHandler)
    (lines : List PipeLine)
    (hun : ∀ nm, PipeLine.frame nm ∈ lines → ∀ g ∈ handlers,
      nm ∉ g.methods) :
    (process_lines handlers {} lines).2.1 = false ∧
    (process_lines handlers {} lines).2.2 = [] ∧
    ∀ nm, (process_lines handlers {} lines).1.unhandled_log.count nm ≤ 1 := by
  obtain ⟨h1, h2, h3⟩ :=
    process_lines_unmatched lines handlers {} hun (by intro nm; simp)
  refine ⟨h1, h2, fun nm => ?_⟩
  rw [h3 nm]
  split <;> omega

/-- Witness for C8: three frames (two with the same unknown name) against
a handler exposing only `proto_session_start`. -/
theorem c8_unmatched_logged_once_witness :
    (process_lines [session_only_handler] {}
      [.frame "proto_new_msg", .frame "proto_new_msg",
       .frame "proto_other"]).2.1 = false ∧
    (process_lines [session_only_handler] {}
      [.frame "proto_new_msg", .frame "proto_new_msg",
       .frame "proto_other"]).1.unhandled_log.count "proto_new_msg" ≤ 1 := by
  have := c8_unmatched_logged_once [session_only_handler]
    [.frame "proto_new_msg", .frame "proto_new_msg", .frame "proto_other"]
    (by
      intro nm hmem g hg
      simp only [List.mem_cons, List.not_mem_nil, or_false,
        PipeLine.frame.injEq] at hmem hg
      subst hg
      rcases hmem with h | h | h <;> subst h <;> decide)
  exact ⟨this.1, this.2.2 "proto_new_msg"⟩

/-! ## C1: codec round trip over the attribute whitelist -/

theorem dict_get_set_self {α : Type} (key : String) (v : α) :
    ∀ l : List (String × α), dict_get key (dict_set key v l) = some v := by
  intro l
  induction l with
  | nil => simp [dict_set, dict_get]
  | cons p rest ih =>
    rcases p with ⟨k, w⟩
    by_cases hk : k = key
    · subst hk
      simp [dict_set, dict_get]
    · simp [dict_set, dict_get, hk, ih]

theorem dict_get_set_ne {α : Type} (key name : String) (hne : key ≠ name)
    (v : α) : ∀ l : List (String × α),
      dict_get name (dict_set key v l) = dict_get name l := by
  intro l
  induction l with
  | nil => simp [dict_set, dict_get, hne]
  | cons p rest ih =>
    rcases p with ⟨k, w⟩
    by_cases hk : k = key
    · subst hk
      simp [dict_set, dict_get, hne, ih]
    · simp only [dict_set, if_neg hk]
      by_cases hk2 : k = name
      · simp [dict_get, hk2]
      · simp [dict_get, hk2, ih]

theorem encode_attrs_cons (n0 : String) (h0 : AttrHandler)
    (rest : List (String × AttrHandler)) (attrs : List (String × PyVal)) :
    encode_attrs ((n0, h0) :: rest) attrs =
      match dict_get n0 attrs with
      | some v =>
        match apply_handler h0 v, encode_attrs rest attrs with
        | some w, some ws => some ((n0, w) :: ws)
        | _, _ => Option.none
      | Option.none => encode_attrs rest attrs := by
  rw [encode_attrs.eq_def]
  dsimp only
  split
  · rename_i v heq
    rw [heq]
  · rename_i heq
    rw [heq]

theorem encode_attrs_nil (attrs : List (String × PyVal)) :
    encode_attrs [] attrs = some [] := by
  rw [encode_attrs.eq_def]

theorem encode_attrs_lookup :
    ∀ (spec : List (String × AttrHandler))
      (attrs out : List (String × PyVal)) (name : String)
      (hdl : AttrHandler) (v : PyVal),
      encode_attrs spec attrs = some out →
      dict_get name spec = some hdl →
      dict_get name attrs = some v →
      ∃ w, apply_handler hdl v = some w ∧ dict_get name out = some w := by
  intro spec
  induction spec with
  | nil =>
    intro attrs out name hdl v _ hspec _
    simp [dict_get] at hspec
  | cons p rest ih =>
    intro attrs out name hdl v henc hspec hval
    rcases p with ⟨n0, h0⟩
    rw [encode_attrs_cons] at henc
    by_cases hn : n0 = name
    · subst hn
      rw [dict_get, if_pos rfl] at hspec
      injection hspec with hspec
      subst hspec
      split at henc
      · rename_i v2 heq
        rw [hval] at heq
        injection heq with heq
        subst heq
        split at henc
        · rename_i w ws happ hrest
          injection henc with henc
          subst henc
          exact ⟨w, happ, by rw [dict_get, if_pos rfl]⟩
        · simp at henc
      · rename_i heq
        rw [hval] at heq
        simp at heq
    · rw [dict_get, if_neg hn] at hspec
      split at henc
      · rename_i v0 heq
        split at henc
        · rename_i w0 ws happ hrest
          injection henc with henc
          subst henc
          obtain ⟨w, hw1, hw2⟩ := ih attrs ws name hdl v hrest hspec hval
          exact ⟨w, hw1, by rw [dict_get, if_neg hn]; exact hw2⟩
        · simp at henc
      · rename_i heq
        exact ih attrs out name hdl v henc hspec hval

/-- Counterexample to claim C1: the whitelist carries `drop`-handled
attributes (`keywords`, `fspath`, `longrepr`, ...) whose values are
replaced by `None` during encoding, so a whitelisted attribute present on
`x` need not come back equal: a test report with `keywords = "kw"` decodes
with `keywords = None`, and `None != "kw"`. -/
theorem c1_counterexample :
    encode roundtrip_input =
      some (.rep .testReport
        [("keywords", .none),
         ("nodeid", .str "tests/test_a.py::test_one")]) ∧
    decode (.str "/repo")
        (.rep .testReport
          [("keywords", .none),
           ("nodeid", .str "tests/test_a.py::test_one")]) =
      some (.str "/repo", .rep .testReport
        [("keywords", .none),
         ("nodeid",
          .testid "tests/test_a.py::test_one" (.str "/repo"))]) ∧
    dict_get "keywords"
        [("nodeid", PyVal.str "tests/test_a.py::test_one"),
         ("keywords", PyVal.str "kw")] = some (.str "kw") ∧
    pyEq PyVal.none (.str "kw") = false := by
  refine ⟨?_, ?_, rfl, ?_⟩
  · simp only [encode, roundtrip_input]
    rw [repr_object.eq_def]
    dsimp only [kind_attrs, test_report_attrs]
    simp only [encode_attrs_cons, encode_attrs_nil, dict_get,
      apply_handler]
    simp
  · simp only [decode]
    rw [convert_nodeids.eq_def]
    dsimp only [is_node_family]
    simp [dict_get, nodeid_string, dict_set]
  · simp [pyEq]

/-- Amended claim C1: for a value of a recognized kind,
`decode(encode(x))` preserves every whitelisted attribute whose handler is
value-preserving (`identity`) other than `nodeid`; attributes whose
handler drops the value come back as `None` (not equal to the original);
and the `nodeid` string of a convertible representation is rehydrated as a
`TestID` that compares equal to the original string. -/
theorem c1_roundtrip_whitelist (root : PyVal) (k : RKind)
    (attrs : List (String × PyVal)) (e root2 y : PyVal)
    (henc : encode (.obj k attrs) = some e)
    (hdec : decode root e = some (root2, y)) :
    (∀ name v, attr_handler k name = some .identity → name ≠ "nodeid" →
      dict_get name attrs = some v → dict_get name (rep_attrs y) = some v) ∧
    (∀ name v, attr_handler k name = some .drop →
      dict_get name attrs = some v →
      dict_get name (rep_attrs y) = some PyVal.none) ∧
    (∀ s, is_convertible k = true →
      dict_get "nodeid" attrs = some (.str s) →
      dict_get "nodeid" (rep_attrs y) = some (.testid s root) ∧
      pyEq (.testid s root) (.str s) = true) := by
  have hobj : encode (PyVal.obj k attrs) =
      (encode_attrs (kind_attrs k) attrs).map (PyVal.rep k) := by
    simp only [encode]
    rw [repr_object.eq_def]
  rw [hobj] at henc
  rcases hea : encode_attrs (kind_attrs k) attrs with _ | out <;>
    rw [hea] at henc
  · simp at henc
  simp only [Option.map_some', Option.some.injEq] at henc
  subst henc
  simp only [decode] at hdec
  cases k
  case config =>
    rw [convert_nodeids.eq_def] at hdec
    dsimp only at hdec
    split at hdec
    · rename_i p hrp
      simp only [Option.some.injEq, Prod.mk.injEq] at hdec
      obtain ⟨hroot, hy⟩ := hdec
      subst hy
      refine ⟨?_, ?_, ?_⟩
      · intro name v hh hnn hv
        obtain ⟨w, hw1, hw2⟩ :=
          encode_attrs_lookup _ attrs out name .identity v hea hh hv
        simp only [apply_handler] at hw1
        injection hw1 with hw1
        subst hw1
        simpa [rep_attrs] using hw2
      · intro name v hh hv
        obtain ⟨w, hw1, hw2⟩ :=
          encode_attrs_lookup _ attrs out name .drop v hea hh hv
        simp only [apply_handler] at hw1
        injection hw1 with hw1
        subst hw1
        simpa [rep_attrs] using hw2
      · intro s hcv hv
        simp [is_convertible, is_node_family] at hcv
    · simp at hdec
  case collectReport =>
    rw [convert_nodeids.eq_def] at hdec
    dsimp only at hdec
    split at hdec
    · rename_i nv hno
      split at hdec
      · rename_i s2 hns
        split at hdec
        · rename_i items hres
          split at hdec
          · rename_i root3 items2 hconv
            simp only [Option.some.injEq, Prod.mk.injEq] at hdec
            obtain ⟨hroot, hy⟩ := hdec
            subst hy
            refine ⟨?_, ?_, ?_⟩
            · intro name v hh hnn hv
              have hnres : name ≠ "result" := by
                intro hx
                subst hx
                exact absurd hh (by decide)
              obtain ⟨w, hw1, hw2⟩ :=
                encode_attrs_lookup _ attrs out name .identity v hea hh hv
              simp only [apply_handler] at hw1
              injection hw1 with hw1
              subst hw1
              simp only [rep_attrs]
              rw [dict_get_set_ne "result" name (fun hx => hnres hx.symm)]
              rw [dict_get_set_ne "nodeid" name (fun hx => hnn hx.symm)]
              exact hw2
            · intro name v hh hv
              have hnn : name ≠ "nodeid" := by
                intro hx
                subst hx
                exact absurd hh (by decide)
              have hnres : name ≠ "result" := by
                intro hx
                subst hx
                exact absurd hh (by decide)
              obtain ⟨w, hw1, hw2⟩ :=
                encode_attrs_lookup _ attrs out name .drop v hea hh hv
              simp only [apply_handler] at hw1
              injection hw1 with hw1
              subst hw1
              simp only [rep_attrs]
              rw [dict_get_set_ne "result" name (fun hx => hnres hx.symm)]
              rw [dict_get_set_ne "nodeid" name (fun hx => hnn hx.symm)]
              exact hw2
            · intro s hcv hv
              have h1 : attr_handler RKind.collectReport "nodeid" =
                  some AttrHandler.identity := by decide
              obtain ⟨w, hw1, hw2⟩ := encode_attrs_lookup _ attrs out
                "nodeid" .identity (.str s) hea h1 hv
              simp only [apply_handler] at hw1
              injection hw1 with hw1
              subst hw1
              rw [hw2] at hno
              injection hno with hno
              subst hno
              simp only [nodeid_string] at hns
              injection hns with hns
              subst hns
              constructor
              · simp only [rep_attrs]
                rw [dict_get_set_ne "result" "nodeid" (by decide)]
                exact dict_get_set_self "nodeid" _ out
              · simp [pyEq]
          · simp at hdec
        · simp at hdec
      · simp at hdec
    · simp at hdec
  case session =>
    rw [convert_nodeids.eq_def] at hdec
    dsimp only [is_node_family] at hdec
    rw [if_neg (by simp)] at hdec
    simp only [Option.some.injEq, Prod.mk.injEq] at hdec
    obtain ⟨hroot, hy⟩ := hdec
    subst hy
    refine ⟨?_, ?_, ?_⟩
    · intro name v hh hnn hv
      obtain ⟨w, hw1, hw2⟩ :=
        encode_attrs_lookup _ attrs out name .identity v hea hh hv
      simp only [apply_handler] at hw1
      injection hw1 with hw1
      subst hw1
      simpa [rep_attrs] using hw2
    · intro name v hh hv
      obtain ⟨w, hw1, hw2⟩ :=
        encode_attrs_lookup _ attrs out name .drop v hea hh hv
      simp only [apply_handler] at hw1
      injection hw1 with hw1
      subst hw1
      simpa [rep_attrs] using hw2
    · intro s hcv hv
      simp [is_convertible, is_node_family] at hcv
  case base =>
    rw [convert_nodeids.eq_def] at hdec
    dsimp only [is_node_family] at hdec
    rw [if_neg (by simp)] at hdec
    simp only [Option.some.injEq, Prod.mk.injEq] at hdec
    obtain ⟨hroot, hy⟩ := hdec
    subst hy
    refine ⟨?_, ?_, ?_⟩
    · intro name v hh hnn hv
      obtain ⟨w, hw1, hw2⟩ :=
        encode_attrs_lookup _ attrs out name .identity v hea hh hv
      simp only [apply_handler] at hw1
      injection hw1 with hw1
      subst hw1
      simpa [rep_attrs] using hw2
    · intro name v hh hv
      obtain ⟨w, hw1, hw2⟩ :=
        encode_attrs_lookup _ attrs out name .drop v hea hh hv
      simp only [apply_handler] at hw1
      injection hw1 with hw1
      subst hw1
      simpa [rep_attrs] using hw2
    · intro s hcv hv
      simp [is_convertible, is_node_family] at hcv
  all_goals
    rw [convert_nodeids.eq_def] at hdec
    dsimp only [is_node_family] at hdec
    rw [if_pos rfl] at hdec
    split at hdec
    case _ nv hno =>
      split at hdec
      case _ s2 hns =>
        simp only [Option.some.injEq, Prod.mk.injEq] at hdec
        obtain ⟨hroot, hy⟩ := hdec
        subst hy
        refine ⟨?_, ?_, ?_⟩
        · intro name v hh hnn hv
          obtain ⟨w, hw1, hw2⟩ :=
            encode_attrs_lookup _ attrs out name .identity v hea hh hv
          simp only [apply_handler] at hw1
          injection hw1 with hw1
          subst hw1
          simp only [rep_attrs]
          rw [dict_get_set_ne "nodeid" name (fun hx => hnn hx.symm)]
          exact hw2
        · intro name v hh hv
          have hnn : name ≠ "nodeid" := by
            intro hx
            subst hx
            exact absurd hh (by decide)
          obtain ⟨w, hw1, hw2⟩ :=
            encode_attrs_lookup _ attrs out name .drop v hea hh hv
          simp only [apply_handler] at hw1
          injection hw1 with hw1
          subst hw1
          simp only [rep_attrs]
          rw [dict_get_set_ne "nodeid" name (fun hx => hnn hx.symm)]
          exact hw2
        · intro s hcv hv
          obtain ⟨w, hw1, hw2⟩ := encode_attrs_lookup _ attrs out
            "nodeid" .identity (.str s) hea (by decide) hv
          simp only [apply_handler] at hw1
          injection hw1 with hw1
          subst hw1
          rw [hw2] at hno
          injection hno with hno
          subst hno
          simp only [nodeid_string] at hns
          injection hns with hns
          subst hns
          constructor
          · simp only [rep_attrs]
            exact dict_get_set_self "nodeid" _ out
          · simp [pyEq]
      case _ => simp at hdec
    case _ => simp at hdec

/-- Witness for C1's amended statement at a concrete test report. -/
theorem c1_roundtrip_whitelist_witness :
    dict_get "nodeid" (rep_attrs (.rep .testReport
      [("keywords", .none),
       ("nodeid",
        .testid "tests/test_a.py::test_one" (.str "/repo"))])) =
      some (.testid "tests/test_a.py::test_one" (.str "/repo")) ∧
    pyEq (.testid "tests/test_a.py::test_one" (.str "/repo"))
      (.str "tests/test_a.py::test_one") = true :=
  (c1_roundtrip_whitelist (.str "/repo") .testReport
    [("nodeid", .str "tests/test_a.py::test_one"),
     ("keywords", .str "kw")]
    (.rep .testReport
      [("keywords", .none), ("nodeid", .str "tests/test_a.py::test_one")])
    (.str "/repo")
    (.rep .testReport
      [("keywords", .none),
       ("nodeid", .testid "tests/test_a.py::test_one" (.str "/repo"))])
    (by
      simp only [encode]
      rw [repr_object.eq_def]
      dsimp only [kind_attrs, test_report_attrs]
      simp only [encode_attrs_cons, encode_attrs_nil, dict_get,
        apply_handler]
      simp)
    (by
      simp only [decode]
      rw [convert_nodeids.eq_def]
      dsimp only [is_node_family]
      simp [dict_get, nodeid_string, dict_set])).2.2
    "tests/test_a.py::test_one" rfl rfl

/-! ## C5: hold-back of early running-phase messages -/

theorem dispatch_proto_hold (mc : MainControl) (m : ProtoMessage)
    (hph : mc.phase ≠ "run") :
    mc.dispatch_proto m =
      { mc with held_back_proto_calls :=
          mc.held_back_proto_calls ++ [m] } := by
  cases m <;>
    simp [MainControl.dispatch_proto, MainControl.proto_start_test,
      MainControl.proto_test_report, MainControl.proto_end_test, hph]

theorem run_events_hold (ms : List ProtoMessage) :
    ∀ (mc : MainControl), mc.phase ≠ "run" →
      run_events mc (ms.map RunEvent.proto) =
        { mc with held_back_proto_calls :=
            mc.held_back_proto_calls ++ ms } := by
  induction ms with
  | nil =>
    intro mc _
    simp [run_events]
  | cons m ms ih =>
    intro mc hph
    have hstep : run_step mc (RunEvent.proto m) = mc.dispatch_proto m := rfl
    simp only [List.map_cons, run_events, List.foldl_cons, hstep]
    rw [dispatch_proto_hold mc m hph]
    have hph2 : ({ mc with held_back_proto_calls :=
        mc.held_back_proto_calls ++ [m] } : MainControl).phase ≠ "run" := hph
    have := ih { mc with held_back_proto_calls :=
        mc.held_back_proto_calls ++ [m] } hph2
    simp only [run_events] at this
    rw [this]
    simp

theorem dispatch_proto_run_held (mc : MainControl) (hph : mc.phase = "run")
    (hb : List ProtoMessage) (m : ProtoMessage) :
    MainControl.dispatch_proto
        { mc with held_back_proto_calls := hb } m =
      { mc.dispatch_proto m with held_back_proto_calls := hb } := by
  obtain ⟨ph, held0, ts, running0, failing0⟩ := mc
  simp only at hph
  subst hph
  cases m with
  | start_test nid =>
    simp only [MainControl.dispatch_proto, MainControl.proto_start_test]
    rcases hst : ts.start_test nid with ⟨ts2, found⟩
    cases found <;> simp [hst]
  | test_report rep =>
    simp only [MainControl.dispatch_proto, MainControl.proto_test_report]
    rcases hst : ts.store_test_report rep with ⟨ts2, stored⟩
    rcases stored with _ | result
    · simp [hst]
    · cases hcond : (result.finished && result.main_error_report.isSome) <;>
        simp [hst, hcond]
  | end_test nid =>
    simp only [MainControl.dispatch_proto, MainControl.proto_end_test]
    rcases hst : ts.end_test nid with _ | result <;> simp [hst]

theorem dispatch_proto_phase (mc : MainControl) (m : ProtoMessage) :
    (mc.dispatch_proto m).phase = mc.phase := by
  by_cases hph : mc.phase = "run"
  · obtain ⟨ph, held0, ts, running0, failing0⟩ := mc
    simp only at hph
    subst hph
    cases m with
    | start_test nid =>
      simp only [MainControl.dispatch_proto, MainControl.proto_start_test]
      rw [if_neg (by simp)]
      rcases hst : ts.start_test nid with ⟨ts2, found⟩
      cases found <;> simp
    | test_report rep =>
      simp only [MainControl.dispatch_proto, MainControl.proto_test_report]
      rw [if_neg (by simp)]
      rcases hst : ts.store_test_report rep with ⟨ts2, stored⟩
      rcases stored with _ | result
      · simp
      · cases hcond : (result.finished &&
          result.main_error_report.isSome) <;> simp [hcond]
    | end_test nid =>
      simp only [MainControl.dispatch_proto, MainControl.proto_end_test]
      rw [if_neg (by simp)]
      rcases hst : ts.end_test nid with _ | result <;> simp
  · rw [dispatch_proto_hold mc m hph]

theorem foldl_dispatch_held (ms : List ProtoMessage) :
    ∀ (mc : MainControl), mc.phase = "run" → ∀ (hb : List ProtoMessage),
      ms.foldl MainControl.dispatch_proto
          { mc with held_back_proto_calls := hb } =
        { ms.foldl MainControl.dispatch_proto mc with
            held_back_proto_calls := hb } := by
  induction ms with
  | nil => intro mc _ hb; simp
  | cons m ms ih =>
    intro mc hph hb
    simp only [List.foldl_cons]
    rw [dispatch_proto_run_held mc hph hb m]
    have hph2 : (mc.dispatch_proto m).phase = "run" := by
      rw [dispatch_proto_phase]; exact hph
    exact ih (mc.dispatch_proto m) hph2 hb

theorem run_events_as_foldl (ms : List ProtoMessage) (mc : MainControl) :
    run_events mc (ms.map RunEvent.proto) =
      ms.foldl MainControl.dispatch_proto mc := by
  simp only [run_events, List.foldl_map]
  rfl

/-- Claim C5: every running-phase message that arrives before the run
phase is confirmed started is queued on the hold-back list in arrival
order (leaving the aggregator untouched), and replaying the queue at the
phase-start transition produces exactly the dispatcher state — hence, for
every test, the outcome classification — that delivering the same messages
after phase start would produce. -/
theorem c5_hold_back_replay (mc : MainControl) (ms : List ProtoMessage)
    (hph : mc.phase ≠ "run") (hheld : mc.held_back_proto_calls = []) :
    (run_events mc (ms.map RunEvent.proto)).held_back_proto_calls = ms ∧
    (run_events mc (ms.map RunEvent.proto)).test_state = mc.test_state ∧
    run_events mc (ms.map RunEvent.proto ++ [RunEvent.start_run_phase]) =
      run_events mc (RunEvent.start_run_phase :: ms.map RunEvent.proto) ∧
    ∀ nid : String,
      (dict_get nid (run_events mc
        (ms.map RunEvent.proto ++
          [RunEvent.start_run_phase])).test_state.items).map
        NodeResult.state =
      (dict_get nid (run_events mc
        (RunEvent.start_run_phase ::
          ms.map RunEvent.proto)).test_state.items).map
        NodeResult.state := by
  obtain ⟨ph, held0, ts, running0, failing0⟩ := mc
  simp only at hheld
  subst hheld
  have hbase : run_events ⟨ph, [], ts, running0, failing0⟩
      (ms.map RunEvent.proto) =
      { phase := ph, held_back_proto_calls := ms, test_state := ts,
        running_tests := running0, failing_tests := failing0 } := by
    rw [run_events_hold ms _ hph]
    simp
  have hfold := foldl_dispatch_held ms ⟨"run", [], ts, running0, failing0⟩ rfl ms
  have hfold0 := foldl_dispatch_held ms ⟨"run", [], ts, running0, failing0⟩ rfl []
  have hthird : run_events ⟨ph, [], ts, running0, failing0⟩
      (ms.map RunEvent.proto ++ [RunEvent.start_run_phase]) =
      run_events ⟨ph, [], ts, running0, failing0⟩
        (RunEvent.start_run_phase :: ms.map RunEvent.proto) := by
    have hlhs : run_events ⟨ph, [], ts, running0, failing0⟩ (ms.map RunEvent.proto ++ [RunEvent.start_run_phase]) = MainControl.proto_start_run_phase ⟨ph, ms, ts, running0, failing0⟩ := by
      simp only [run_events, List.foldl_append, List.foldl_cons,
        List.foldl_nil]
      simp only [run_events] at hbase
      rw [hbase]
      rfl
    have hrhs : run_events ⟨ph, [], ts, running0, failing0⟩ (RunEvent.start_run_phase :: ms.map RunEvent.proto) = ms.foldl MainControl.dispatch_proto ⟨"run", [], ts, running0, failing0⟩ := by
      simp only [run_events, List.foldl_cons]
      have hsrp : run_step ⟨ph, [], ts, running0, failing0⟩ RunEvent.start_run_phase = ⟨"run", [], ts, running0, failing0⟩ := rfl
      rw [hsrp]
      have := run_events_as_foldl ms ⟨"run", [], ts, running0, failing0⟩
      simpa [run_events] using this
    have hunfold : MainControl.proto_start_run_phase ⟨ph, ms, ts, running0, failing0⟩ = { ms.foldl MainControl.dispatch_proto ⟨"run", ms, ts, running0, failing0⟩ with held_back_proto_calls := [] } := rfl
    have hms : (⟨"run", ms, ts, running0, failing0⟩ : MainControl) = { (⟨"run", [], ts, running0, failing0⟩ : MainControl) with held_back_proto_calls := ms } := rfl
    have hnil : (⟨"run", [], ts, running0, failing0⟩ : MainControl) = { (⟨"run", [], ts, running0, failing0⟩ : MainControl) with held_back_proto_calls := [] } := rfl
    rw [hlhs, hrhs, hunfold, hms, hfold]
    conv_rhs => rw [hnil, hfold0]
  refine ⟨?_, ?_, hthird, fun nid => by rw [hthird]⟩
  · rw [hbase]
  · rw [hbase]

/-- Witness for C5: a setup report for an unknown-yet test held back and
replayed around the phase start. -/
theorem c5_hold_back_replay_witness :
    run_events { phase := "" }
      ([ProtoMessage.start_test "tests/test_b.py::test_only",
        ProtoMessage.test_report teardown_report].map RunEvent.proto ++
        [RunEvent.start_run_phase]) =
    run_events { phase := "" }
      (RunEvent.start_run_phase ::
        [ProtoMessage.start_test "tests/test_b.py::test_only",
         ProtoMessage.test_report teardown_report].map RunEvent.proto) :=
  (c5_hold_back_replay { phase := "" }
    [ProtoMessage.start_test "tests/test_b.py::test_only",
     ProtoMessage.test_report teardown_report]
    (by decide) rfl).2.2.1

/-! ## C7: progress grouping of 200 tests on an 80-column surface -/

set_option maxRecDepth 40000 in
/-- Counterexample to claim C7: with 200 tests in one file and the claimed
slot budget of 50 (group name 21 characters wide on an 80-column surface),
the split names its chunks `G[1]`, `G[2]`, `G[3]`, `G[4]` — the first
chunk is `G[1]`, not `G`, so there is no group named `G`.  (The label map,
not the group name, is what keeps `G` for the first chunk.) -/
theorem c7_counterexample :
    Nat.max 30 (80 - c7_name.length - 9) = 50 ∧
    (mapper_init 80 24 c7_items).item_map.map Prod.fst =
      [c7_name ++ "[1]", c7_name ++ "[2]",
       c7_name ++ "[3]", c7_name ++ "[4]"] ∧
    c7_name ∉ (mapper_init 80 24 c7_items).item_map.map Prod.fst := by
  refine ⟨by decide, by decide, by decide⟩

set_option maxRecDepth 40000 in
/-- Amended claim C7: for 200 tests in one source file on an 80×24
surface with a 50-slot budget, the grouping produces exactly 4 groups
named `G[1]`, `G[2]`, `G[3]`, `G[4]` of 50 tests each; only the first
chunk `G[1]` keeps the group's display label `G` and later chunks get an
empty label; and sorting places `G[1]` before `G[2]` before `G[3]` by
treating the trailing `[n]` suffix as a numeric sort key. -/
theorem c7_grouping :
    (mapper_init 80 24 c7_items).item_map.map
        (fun p => (p.1, p.2.length)) =
      [(c7_name ++ "[1]", 50), (c7_name ++ "[2]", 50),
       (c7_name ++ "[3]", 50), (c7_name ++ "[4]", 50)] ∧
    (mapper_init 80 24 c7_items).label_map =
      [(c7_name ++ "[1]", c7_name), (c7_name ++ "[2]", ""),
       (c7_name ++ "[3]", ""), (c7_name ++ "[4]", "")] ∧
    get_key (c7_name ++ "[2]") = (c7_name, 2) ∧
    key_le (get_key (c7_name ++ "[1]")) (get_key (c7_name ++ "[2]")) = true ∧
    key_le (get_key (c7_name ++ "[2]")) (get_key (c7_name ++ "[3]")) = true ∧
    key_le (get_key (c7_name ++ "[2]")) (get_key (c7_name ++ "[1]")) =
      false := by
  refine ⟨by decide, by decide, by decide, by decide, by decide, by decide⟩

end PytestRicher
